import Mathlib

/-!
# Verification of the magg aggregation-and-notification control plane

This development embeds the control plane of the `magg` MCP aggregator —
the server lifecycle state machine (add/remove/enable/disable/mount/unmount),
the kit manager, the health reconciler (`check`), the capability filter for
the two operating modes, and the notification dispatcher — together with the
environment-variable expansion utility `expand_env_vars` from
`magg/util/system.py`, and proves the stated behavioural properties.

The `MaggServer` implementation itself is not part of the provided sources
(only its test suite is), so the lifecycle/kit/check/notification layer is
modelled from the specification, faithful to its wording; `expand_env_vars`
is embedded directly from `magg/util/system.py`.
-/

namespace Magg

/-! ## Data model (modelled from the spec, §3) -/

/-- Modelled from the spec: error taxonomy of §7 — `NotFound`, `DuplicateName`,
`AlreadyLoaded`/`NotLoaded`, `MountFailure`, `ProbeTimeout`. -/
inductive ErrKind where
  | NotFound
  | DuplicateName
  | AlreadyLoaded
  | NotLoaded
  | MountFailure
  | ProbeTimeout
deriving Repr, DecidableEq

/-- Modelled from the spec: `OperationResult` — "a success flag, an optional
structured output payload, and an optional human-readable message"; the payload
carries per-server warnings, an `actions_taken` list for `check`, and the
per-server failures collected by kit loading. -/
structure MaggResponse where
  is_success : Bool
  errKind : Option ErrKind := none
  warnings : List String := []
  actions_taken : List String := []
  failed_servers : List String := []
deriving Repr, DecidableEq

def MaggResponse.ok : MaggResponse := { is_success := true }

def MaggResponse.okWarn (w : String) : MaggResponse :=
  { is_success := true, warnings := [w] }

def MaggResponse.fail (k : ErrKind) : MaggResponse :=
  { is_success := false, errKind := some k }

/-- Modelled from the spec: `ServerEntry` — `name` (unique key), `source`,
launch descriptor (`command`), `enabled` (persisted intent), `mounted` (live
state), plus the internal owning-kit tag of §9 used to disambiguate kit-owned
entries from standalone ones. -/
structure ServerEntry where
  name : String
  source : String
  command : String
  enabled : Bool
  mounted : Bool
  kitOwner : Option String
deriving Repr, DecidableEq

/-- Modelled from the spec: one embedded server definition inside a kit. -/
structure KitServerDef where
  name : String
  source : String
  command : String
  enabled : Bool
deriving Repr, DecidableEq

/-- Modelled from the spec: `KitEntry` — a named, orderable bundle of server
definitions. -/
structure Kit where
  name : String
  description : String
  servers : List KitServerDef
deriving Repr, DecidableEq

/-- Modelled from the spec: aggregator state — the live `ServerEntry` set, the
Capability Registry (the names of servers whose capability contribution is
currently registered), and the names of currently loaded kits. -/
structure State where
  servers : List ServerEntry
  registry : List String
  loadedKits : List String
deriving Repr, DecidableEq

def State.init : State := ⟨[], [], []⟩

/-- Modelled from the spec: the external collaborators — per-server transport
handshake outcome for mount, transport teardown outcome for unmount, the kit
definitions supplied by the kit source location, the bounded-time liveness
probe outcome for `check`, and an internal-fault flag for the check operation
("even if the overall check operation ultimately fails after having taken some
actions"). -/
structure Env where
  mountOk : String → Bool
  unmountOk : String → Bool
  kitDefs : List Kit
  healthy : String → Bool
  checkInternalError : Bool

/-! ## Notification dispatcher (modelled from the spec, §4.5) -/

/-- Modelled from the spec: a connected client context with the three
notification channels; each flag records whether that channel's send raises. -/
structure ClientContext where
  toolFails : Bool
  resourceFails : Bool
  promptFails : Bool
deriving Repr, DecidableEq

/-- How many times each of the three channels was invoked during a dispatch. -/
structure NotifyLog where
  tool : Nat
  resource : Nat
  prompt : Nat
deriving Repr, DecidableEq

def NotifyLog.zero : NotifyLog := ⟨0, 0, 0⟩

def NotifyLog.oneEach : NotifyLog := ⟨1, 1, 1⟩

/-- A single channel send: raises iff the context's flag for it is set. -/
def sendChannel (fails : Bool) : Except String Unit :=
  if fails then Except.error "Notification failed" else Except.ok ()

/-- One attempt at one channel: the channel is invoked (counted once) and any
exception it raises is caught, logged, and swallowed. Returns the invocation
count together with the swallowed error, if any. -/
def attemptChannel (fails : Bool) : Nat × Option String :=
  (1, match sendChannel fails with
      | Except.ok _ => none
      | Except.error e => some e)

/-- Modelled from the spec: `notify(clientContext)` attempts, independently,
tool-list-changed, resource-list-changed and prompt-list-changed; each channel
is attempted even if another one fails; failures are logged and swallowed,
never re-raised. Returns the per-channel invocation counts and the list of
swallowed channel errors. -/
def notifyChannels (ctx : ClientContext) : NotifyLog × List String :=
  let t := attemptChannel ctx.toolFails
  let r := attemptChannel ctx.resourceFails
  let p := attemptChannel ctx.promptFails
  (⟨t.1, r.1, p.1⟩, (t.2.toList ++ r.2.toList) ++ p.2.toList)

/-- Modelled from the spec: if `clientContext` is absent the dispatch is a
silent no-op; otherwise all three channels are dispatched. -/
def notifyDispatch (ctx? : Option ClientContext) : NotifyLog :=
  match ctx? with
  | none => NotifyLog.zero
  | some ctx => (notifyChannels ctx).1

/-- Attach the guaranteed-run exit-path notification dispatch to a core
operation's outcome: the dispatch happens exactly once on every exit path,
and its failures never touch the `MaggResponse`. -/
def withNotify (ctx? : Option ClientContext) (p : State × MaggResponse) :
    State × MaggResponse × NotifyLog :=
  (p.1, p.2, notifyDispatch ctx?)

/-! ## Server Lifecycle Controller (modelled from the spec, §4.1) -/

/-- Look up the configured entry with the given name. -/
def State.findServer (st : State) (name : String) : Option ServerEntry :=
  st.servers.find? (fun e => e.name == name)

/-- Apply `f` to the entry with the given name, leaving the rest alone. -/
def updateServer (st : State) (name : String) (f : ServerEntry → ServerEntry) :
    State :=
  { st with servers := st.servers.map (fun e => if e.name == name then f e else e) }

/-- Modelled from the spec: `mount(name)` — idempotent (mounting an
already-mounted server is a no-op success); registers the server's capability
contribution in the Capability Registry only after a successful live handshake
with the transport collaborator. Entering the `Mounted` state carries the
enabled intent with it, so the invariant `mounted ⇒ enabled` is maintained. -/
def mountCore (env : Env) (st : State) (name : String) : State × MaggResponse :=
  match st.findServer name with
  | none => (st, MaggResponse.fail .NotFound)
  | some e =>
    if e.mounted then (st, MaggResponse.ok)
    else if env.mountOk name then
      let st1 := updateServer st name (fun x => { x with enabled := true, mounted := true })
      ({ st1 with registry := st1.registry ++ [name] }, MaggResponse.ok)
    else (st, MaggResponse.fail .MountFailure)

/-- Modelled from the spec: `unmount(name)` — idempotent (unmounting an
already-unmounted server is a no-op success); deregisters the contribution
first, then tears down the transport, so the registry never reports
capabilities for a server mid-teardown; a teardown error is logged as a
warning, and the persisted `enabled` intent is untouched. -/
def unmountCore (env : Env) (st : State) (name : String) : State × MaggResponse :=
  match st.findServer name with
  | none => (st, MaggResponse.fail .NotFound)
  | some e =>
    if e.mounted then
      let st1 := updateServer st name (fun x => { x with mounted := false })
      ({ st1 with registry := st1.registry.erase name },
       if env.unmountOk name then MaggResponse.ok
       else MaggResponse.okWarn "unmount teardown error")
    else (st, MaggResponse.ok)

/-- Modelled from the spec: `add(name, source, launch descriptor, enable)` —
fails with `DuplicateName` if the name exists; creates the entry in
`Configured` state; if `enable` is true, immediately attempts mount, and a
mount failure does not fail the add — the entry persists with `enabled=true,
mounted=false` and the result carries the mount error as a warning. The
`owner` tag records the owning kit for kit-created entries. -/
def addCore (env : Env) (st : State) (name source command : String)
    (enable : Bool) (owner : Option String) : State × MaggResponse :=
  match st.findServer name with
  | some _ => (st, MaggResponse.fail .DuplicateName)
  | none =>
    let entry : ServerEntry :=
      { name := name, source := source, command := command,
        enabled := enable, mounted := false, kitOwner := owner }
    let st1 : State := { st with servers := st.servers ++ [entry] }
    if enable then
      let p := mountCore env st1 name
      (p.1, if p.2.is_success then MaggResponse.ok
            else MaggResponse.okWarn "Failed to mount")
    else (st1, MaggResponse.ok)

/-- Modelled from the spec: `remove(name)` — fails with `NotFound` if absent;
if mounted, unmounts first (unmount errors are logged but do not block
removal); removes the entry and its registry contribution. -/
def removeCore (env : Env) (st : State) (name : String) : State × MaggResponse :=
  match st.findServer name with
  | none => (st, MaggResponse.fail .NotFound)
  | some _ =>
    let st1 := (unmountCore env st name).1
    ({ st1 with servers := st1.servers.filter (fun e => e.name != name) },
     MaggResponse.ok)

/-- Modelled from the spec: `enable(name)` — fails with `NotFound` if absent;
sets `enabled=true` and attempts mount with the same failure tolerance as
`add`. -/
def enableCore (env : Env) (st : State) (name : String) : State × MaggResponse :=
  match st.findServer name with
  | none => (st, MaggResponse.fail .NotFound)
  | some _ =>
    let st1 := updateServer st name (fun x => { x with enabled := true })
    let p := mountCore env st1 name
    (p.1, if p.2.is_success then MaggResponse.ok
          else MaggResponse.okWarn "Failed to mount")

/-- Modelled from the spec: `disable(name)` — fails with `NotFound` if absent;
unmounts if mounted, and even on unmount failure forces `enabled=false` and
`mounted=false`: disable is a hard demand, not advisory. -/
def disableCore (env : Env) (st : State) (name : String) : State × MaggResponse :=
  match st.findServer name with
  | none => (st, MaggResponse.fail .NotFound)
  | some _ =>
    let st1 := (unmountCore env st name).1
    (updateServer st1 name (fun x => { x with enabled := false, mounted := false }),
     MaggResponse.ok)

/-! ## Kit Manager (modelled from the spec, §4.3) -/

/-- One step of kit loading: add one embedded server definition (tagged with
the owning kit) and record its name among the collected failures if the add
failed. -/
def loadKitStep (env : Env) (kname : String) (acc : State × List String)
    (d : KitServerDef) : State × List String :=
  let p := addCore env acc.1 d.name d.source d.command d.enabled (some kname)
  (p.1, if p.2.is_success then acc.2 else acc.2 ++ [d.name])

/-- Modelled from the spec: `loadKit(name)` — fails with `NotFound` if no kit
definition of that name exists, `AlreadyLoaded` if already loaded; otherwise
adds the kit's embedded server definitions in declared order, tagging each
created entry with the owning kit name; individual add failures are collected
into the result, not fatal to the load. -/
def loadKitCore (env : Env) (st : State) (name : String) : State × MaggResponse :=
  match env.kitDefs.find? (fun k => k.name == name) with
  | none => (st, MaggResponse.fail .NotFound)
  | some kit =>
    if name ∈ st.loadedKits then (st, MaggResponse.fail .AlreadyLoaded)
    else
      let acc := kit.servers.foldl (loadKitStep env name) (st, [])
      ({ acc.1 with loadedKits := acc.1.loadedKits ++ [name] },
       { is_success := true, failed_servers := acc.2 })

/-- Modelled from the spec: `unloadKit(name)` — fails with `NotFound` if no
such kit definition exists, `NotLoaded` if not loaded; removes exactly the
entries tagged with this kit's name, leaving untagged same-named entries
untouched. -/
def unloadKitCore (env : Env) (st : State) (name : String) : State × MaggResponse :=
  match env.kitDefs.find? (fun k => k.name == name) with
  | none => (st, MaggResponse.fail .NotFound)
  | some _ =>
    if name ∈ st.loadedKits then
      let owned := (st.servers.filter (fun e => e.kitOwner == some name)).map (·.name)
      let st1 := owned.foldl (fun s n => (removeCore env s n).1) st
      ({ st1 with loadedKits := st1.loadedKits.erase name }, MaggResponse.ok)
    else (st, MaggResponse.fail .NotLoaded)

/-! ## Health Reconciler (modelled from the spec, §4.4) -/

/-- The `action` mode of a `check` run. -/
inductive CheckAction where
  | report
  | disable
  | unmount
deriving Repr, DecidableEq

/-- Modelled from the spec: `check` probes each currently mounted server; a
probe that does not complete within the timeout classifies the server
unhealthy. For each unhealthy server, `report` only records it, while
`disable`/`unmount` invoke the corresponding lifecycle transition and append
the name to `actions_taken`. An internal fault after remediation converts into
a failed result that still carries `actions_taken`. -/
def checkCore (env : Env) (st : State) (action : CheckAction) : State × MaggResponse :=
  let unhealthy := ((st.servers.filter (fun e => e.mounted)).map (·.name)).filter
    (fun n => !env.healthy n)
  match action with
  | .report => (st, { is_success := true, warnings := unhealthy })
  | .disable =>
    let st1 := unhealthy.foldl (fun s n => (disableCore env s n).1) st
    (st1, { is_success := !env.checkInternalError, actions_taken := unhealthy })
  | .unmount =>
    let st1 := unhealthy.foldl (fun s n => (unmountCore env s n).1) st
    (st1, { is_success := !env.checkInternalError, actions_taken := unhealthy })

/-! ## Client-facing operations with guaranteed notification dispatch -/

/-- `add_server` with the exit-path notification dispatch of §4.1. -/
def add_server (env : Env) (st : State) (name source command : String)
    (enable : Bool) (ctx? : Option ClientContext) :
    State × MaggResponse × NotifyLog :=
  withNotify ctx? (addCore env st name source command enable none)

/-- `remove_server` with the exit-path notification dispatch of §4.1. -/
def remove_server (env : Env) (st : State) (name : String)
    (ctx? : Option ClientContext) : State × MaggResponse × NotifyLog :=
  withNotify ctx? (removeCore env st name)

/-- `enable_server` with the exit-path notification dispatch of §4.1. -/
def enable_server (env : Env) (st : State) (name : String)
    (ctx? : Option ClientContext) : State × MaggResponse × NotifyLog :=
  withNotify ctx? (enableCore env st name)

/-- `disable_server` with the exit-path notification dispatch of §4.1. -/
def disable_server (env : Env) (st : State) (name : String)
    (ctx? : Option ClientContext) : State × MaggResponse × NotifyLog :=
  withNotify ctx? (disableCore env st name)

/-- `load_kit` with the exit-path notification dispatch of §4.3. -/
def load_kit (env : Env) (st : State) (name : String)
    (ctx? : Option ClientContext) : State × MaggResponse × NotifyLog :=
  withNotify ctx? (loadKitCore env st name)

/-- `unload_kit` with the exit-path notification dispatch of §4.3. -/
def unload_kit (env : Env) (st : State) (name : String)
    (ctx? : Option ClientContext) : State × MaggResponse × NotifyLog :=
  withNotify ctx? (unloadKitCore env st name)

/-- Modelled from the spec: `check` dispatches notifications once at the end,
if and only if `actions_taken` is non-empty — a pure report never notifies,
and the dispatch is unconditional on "any action was taken", not on "the
check succeeded". -/
def check (env : Env) (st : State) (action : CheckAction)
    (ctx? : Option ClientContext) : State × MaggResponse × NotifyLog :=
  let p := checkCore env st action
  (p.1, p.2,
   if p.2.actions_taken.isEmpty then NotifyLog.zero else notifyDispatch ctx?)

/-! ## Capability Filter (modelled from the spec, §4.2 and §9) -/

/-- Modelled from the spec: the process-wide operating mode — `Full` (default)
or `Kit-changes-only`. -/
inductive OperatingMode where
  | full
  | kitChangesOnly
deriving Repr, DecidableEq

/-- Function-area tags of the aggregator's built-in capabilities (§6:
server management, kit management, view/status, health-check, reload,
proxy). -/
inductive CapTag where
  | serverManagement
  | kitManagement
  | view
  | healthCheck
  | reload
  | proxy
deriving Repr, DecidableEq

/-- Modelled from the spec: the declarative capability→tag mapping over the
aggregator's built-in management capabilities, using the stable client-facing
identifier strings exercised by the test suite. -/
def capabilities : List (String × CapTag) :=
  [("magg_add_server", .serverManagement),
   ("magg_remove_server", .serverManagement),
   ("magg_enable_server", .serverManagement),
   ("magg_disable_server", .serverManagement),
   ("magg_search_servers", .serverManagement),
   ("magg_smart_configure", .serverManagement),
   ("magg_analyze_servers", .serverManagement),
   ("magg_check", .healthCheck),
   ("magg_reload_config", .reload),
   ("magg_load_kit", .kitManagement),
   ("magg_unload_kit", .kitManagement),
   ("magg_list_kits", .kitManagement),
   ("magg_kit_info", .kitManagement),
   ("magg_list_servers", .view),
   ("magg_status", .view),
   ("proxy", .proxy)]

/-- Modelled from the spec: which tags are visible in each mode — Full shows
everything; Kit-changes-only shows only kit-management, view, and the proxy
capability. -/
def tagVisible : OperatingMode → CapTag → Bool
  | .full, _ => true
  | .kitChangesOnly, .kitManagement => true
  | .kitChangesOnly, .view => true
  | .kitChangesOnly, .proxy => true
  | .kitChangesOnly, _ => false

/-- Modelled from the spec: the pure capability filter — the client-visible
built-in capability identifiers as a function of the operating mode. -/
def visibleTools (m : OperatingMode) : List String :=
  (capabilities.filter (fun c => tagVisible m c.2)).map (·.1)

/-! ## Reachable states (for the lifecycle invariant) -/

/-- One client-invocable mutating operation, for forming arbitrary
sequences. -/
inductive Op where
  | add (name source command : String) (enable : Bool)
  | remove (name : String)
  | enable (name : String)
  | disable (name : String)
  | mount (name : String)
  | unmount (name : String)
  | loadKit (name : String)
  | unloadKit (name : String)
  | check (action : CheckAction)
deriving Repr, DecidableEq

/-- The state transition of one operation (its result is dropped). -/
def applyOp (env : Env) (st : State) : Op → State
  | .add name source command enable => (addCore env st name source command enable none).1
  | .remove name => (removeCore env st name).1
  | .enable name => (enableCore env st name).1
  | .disable name => (disableCore env st name).1
  | .mount name => (mountCore env st name).1
  | .unmount name => (unmountCore env st name).1
  | .loadKit name => (loadKitCore env st name).1
  | .unloadKit name => (unloadKitCore env st name).1
  | .check action => (checkCore env st action).1

/-- The state reached from the initial state by a sequence of operations. -/
def runOps (env : Env) (ops : List Op) : State :=
  ops.foldl (applyOp env) State.init

/-- The lifecycle invariant: every mounted entry is enabled, and its
capability contribution is present in the Capability Registry. -/
def Inv (st : State) : Prop :=
  ∀ e ∈ st.servers, e.mounted = true → e.enabled = true ∧ e.name ∈ st.registry

/-! ## Environment-variable expansion (`magg/util/system.py`)

`expand_env_vars` substitutes the regex `\$\{([^}]+)\}` over the input string:
each leftmost-first match `${var_expr}` is replaced by `replace_braced`; a
match needs at least one non-`}` character between the braces and ends at the
first `}`. The replacement logic: if `:-` occurs in `var_expr`, split at the
first `:-` into `var_name` and `default` and return
`os.environ.get(var_name.strip(), default)`; otherwise return
`os.environ.get(var_expr, match.group(0))` — i.e. the whole match survives
unchanged when the variable is unset. Non-`str` inputs are returned
unchanged (the `isinstance` guard). -/

/-- Python's `var_expr.split(':-', 1)`: split at the first occurrence of the
two-character separator, `none` when the separator does not occur (the
`':-' in var_expr` test). -/
def splitColonDash : List Char → Option (List Char × List Char)
  | [] => none
  | [_] => none
  | c1 :: c2 :: rest =>
    if c1 = ':' ∧ c2 = '-' then some ([], rest)
    else (splitColonDash (c2 :: rest)).map (fun p => (c1 :: p.1, p.2))

/-- CPython's whitespace predicate `Py_UNICODE_ISSPACE`, the character class
both `str.isspace()` and `str.strip()` use: exactly the 29 code points
`\t`, `\n`, `\x0b`, `\x0c`, `\r`, `\x1c`-`\x1f`, space, `\x85` (NEL),
`\xa0` (NBSP), U+1680, U+2000-U+200A, U+2028, U+2029, U+202F, U+205F and
U+3000. -/
def pyIsSpace (c : Char) : Bool :=
  [0x9, 0xa, 0xb, 0xc, 0xd, 0x1c, 0x1d, 0x1e, 0x1f, 0x20, 0x85,
   0xa0, 0x1680, 0x2000, 0x2001, 0x2002, 0x2003, 0x2004, 0x2005,
   0x2006, 0x2007, 0x2008, 0x2009, 0x200a, 0x2028, 0x2029, 0x202f,
   0x205f, 0x3000].contains c.toNat

/-- Python's `str.strip()`: drop `Py_UNICODE_ISSPACE` characters from both
ends. -/
def pyStrip (s : List Char) : List Char :=
  ((s.dropWhile pyIsSpace).reverse.dropWhile pyIsSpace).reverse

/-- Scan for the first `}`: the index of the first closing brace, if any.
The characters before it are the regex group `[^}]+` (possibly empty here),
matching stops right after it. -/
def findCloseBrace : List Char → Option Nat
  | [] => none
  | c :: cs =>
    if c = '}' then some 0
    else (findCloseBrace cs).map (· + 1)

/-- The `replace_braced` callback of `expand_env_vars`, applied to the regex
group `var_expr` (the text between the braces). -/
def replace_braced (env : String → Option String) (varExpr : List Char) :
    List Char :=
  match splitColonDash varExpr with
  | some p =>
    match env (String.mk (pyStrip p.1)) with
    | some val => val.data
    | none => p.2
  | none =>
    match env (String.mk varExpr) with
    | some val => val.data
    | none => '$' :: '{' :: (varExpr ++ ['}'])

/-- The left-to-right scan of `re.sub(r'\$\{([^}]+)\}', replace_braced, value)`
over the characters of `value`: at each `${`, the match extends to the first
following `}` and requires a non-empty group; on a match the replacement is
emitted and scanning resumes after the `}`; otherwise the character is copied
and scanning advances. -/
def expandAux (env : String → Option String) : List Char → List Char
  | [] => []
  | [c] => [c]
  | c1 :: c2 :: rest =>
    if c1 = '$' ∧ c2 = '{' then
      match findCloseBrace rest with
      | none => c1 :: c2 :: rest
      | some i =>
        if (rest.take i).isEmpty then
          c1 :: c2 :: '}' :: expandAux env (rest.drop (i + 1))
        else
          replace_braced env (rest.take i) ++ expandAux env (rest.drop (i + 1))
    else c1 :: expandAux env (c2 :: rest)
termination_by l => l.length
decreasing_by
  · simp only [List.length_cons, List.length_drop]
    omega
  · simp only [List.length_cons, List.length_drop]
    omega
  · simp

/-- `expand_env_vars` restricted to string inputs. -/
def expandString (env : String → Option String) (s : String) : String :=
  String.mk (expandAux env s.data)

/-- A dynamically-typed Python value at the `expand_env_vars` boundary:
either a `str` or some non-string value (abstracted). -/
inductive PyVal where
  | str (s : String)
  | nonStr (o : Nat)
deriving Repr, DecidableEq

/-- `expand_env_vars(value)` from `magg/util/system.py`, with `os.environ`
supplied as the `env` lookup: non-string values are returned unchanged,
strings undergo the regex substitution. -/
def expand_env_vars (env : String → Option String) : PyVal → PyVal
  | .str s => .str (expandString env s)
  | .nonStr o => .nonStr o

/-! ## Concrete instances used by the witnesses -/

/-- A benign environment: every mount handshake and unmount teardown succeeds,
no kits, every probe healthy, no internal check fault. -/
def envW : Env :=
  { mountOk := fun _ => true, unmountOk := fun _ => true, kitDefs := [],
    healthy := fun _ => true, checkInternalError := false }

/-- An environment whose probes all time out and whose check run then hits an
internal fault: remediation actions are taken and the check reports failure. -/
def envFailW : Env :=
  { mountOk := fun _ => true, unmountOk := fun _ => true, kitDefs := [],
    healthy := fun _ => false, checkInternalError := true }

/-- A client context whose three channels all deliver. -/
def ctxW : ClientContext := ⟨false, false, false⟩

/-- A mounted, enabled, registered server entry named `a`. -/
def entryMountedW : ServerEntry :=
  { name := "a", source := "s", command := "c", enabled := true,
    mounted := true, kitOwner := none }

/-- A configured-only (never mounted) server entry named `b`. -/
def entryConfiguredW : ServerEntry :=
  { name := "b", source := "s", command := "c", enabled := false,
    mounted := false, kitOwner := none }

/-- A state with one mounted server `a` and one configured-only server `b`. -/
def stW : State :=
  { servers := [entryMountedW, entryConfiguredW], registry := ["a"],
    loadedKits := [] }

/-- A one-operation history: add server `a` with immediate mount. -/
def opsW : List Op := [Op.add "a" "s" "c" true]

/-- A concrete `os.environ` with exactly `API_KEY=secret123` set. -/
def envLookupW : String → Option String :=
  fun s => if s = "API_KEY" then some "secret123" else none

/-! ## Theorems -/

/-- Claim C1: every mutating operation (add, remove, enable, disable, loadKit,
unloadKit) invoked with a client context invokes each of the three
notification channels (tool-, resource-, prompt-list-changed) exactly once
per call, on every exit path — the state, arguments, and hence the
success/failure branch taken are universally quantified. -/
theorem mutating_ops_notify_once (env : Env) (st : State)
    (name source command kname : String) (enable : Bool) (ctx : ClientContext) :
    (add_server env st name source command enable (some ctx)).2.2 = NotifyLog.oneEach ∧
    (remove_server env st name (some ctx)).2.2 = NotifyLog.oneEach ∧
    (enable_server env st name (some ctx)).2.2 = NotifyLog.oneEach ∧
    (disable_server env st name (some ctx)).2.2 = NotifyLog.oneEach ∧
    (load_kit env st kname (some ctx)).2.2 = NotifyLog.oneEach ∧
    (unload_kit env st kname (some ctx)).2.2 = NotifyLog.oneEach :=
  ⟨rfl, rfl, rfl, rfl, rfl, rfl⟩

/-- Claim C4: `check` with `action=report` never invokes any notification channel,
whatever the state (and hence however many probed servers are unhealthy) and
whether or not a client context is supplied. -/
theorem check_report_never_notifies (env : Env) (st : State)
    (ctx? : Option ClientContext) :
    (check env st CheckAction.report ctx?).2.2 = NotifyLog.zero :=
  rfl

/-- Claim C7: a mutating operation invoked with an absent client context invokes no
notification channel at all, and its outcome — resulting state and
`OperationResult` — is exactly what it would have been with a context, so the
absence of the context never causes a failure: the dispatch is a silent
no-op. -/
theorem no_context_silent_noop (env : Env) (st : State)
    (name source command kname : String) (enable : Bool) (ctx : ClientContext) :
    ((add_server env st name source command enable none).2.2 = NotifyLog.zero ∧
      (add_server env st name source command enable none).1 =
        (add_server env st name source command enable (some ctx)).1 ∧
      (add_server env st name source command enable none).2.1 =
        (add_server env st name source command enable (some ctx)).2.1) ∧
    ((remove_server env st name none).2.2 = NotifyLog.zero ∧
      (remove_server env st name none).1 = (remove_server env st name (some ctx)).1 ∧
      (remove_server env st name none).2.1 = (remove_server env st name (some ctx)).2.1) ∧
    ((enable_server env st name none).2.2 = NotifyLog.zero ∧
      (enable_server env st name none).1 = (enable_server env st name (some ctx)).1 ∧
      (enable_server env st name none).2.1 = (enable_server env st name (some ctx)).2.1) ∧
    ((disable_server env st name none).2.2 = NotifyLog.zero ∧
      (disable_server env st name none).1 = (disable_server env st name (some ctx)).1 ∧
      (disable_server env st name none).2.1 = (disable_server env st name (some ctx)).2.1) ∧
    ((load_kit env st kname none).2.2 = NotifyLog.zero ∧
      (load_kit env st kname none).1 = (load_kit env st kname (some ctx)).1 ∧
      (load_kit env st kname none).2.1 = (load_kit env st kname (some ctx)).2.1) ∧
    ((unload_kit env st kname none).2.2 = NotifyLog.zero ∧
      (unload_kit env st kname none).1 = (unload_kit env st kname (some ctx)).1 ∧
      (unload_kit env st kname none).2.1 = (unload_kit env st kname (some ctx)).2.1) :=
  ⟨⟨rfl, rfl, rfl⟩, ⟨rfl, rfl, rfl⟩, ⟨rfl, rfl, rfl⟩, ⟨rfl, rfl, rfl⟩,
   ⟨rfl, rfl, rfl⟩, ⟨rfl, rfl, rfl⟩⟩

/-- Claim C5: during a dispatch every one of the three channels is attempted
(invoked exactly once) whatever combination of channels raises, the raised
errors are swallowed inside the dispatcher rather than re-raised, and the
`OperationResult` (state and response, including the success flag) of the
triggering operation is identical under any two contexts — i.e. channel
failures never change it. -/
theorem notify_failures_isolated (env : Env) (st : State)
    (name source command kname : String) (enable : Bool)
    (ctx ctx' : ClientContext) :
    ((notifyChannels ctx).1 = NotifyLog.oneEach) ∧
    ((add_server env st name source command enable (some ctx)).1 =
        (add_server env st name source command enable (some ctx')).1 ∧
      (add_server env st name source command enable (some ctx)).2.1 =
        (add_server env st name source command enable (some ctx')).2.1) ∧
    ((remove_server env st name (some ctx)).1 = (remove_server env st name (some ctx')).1 ∧
      (remove_server env st name (some ctx)).2.1 = (remove_server env st name (some ctx')).2.1) ∧
    ((enable_server env st name (some ctx)).1 = (enable_server env st name (some ctx')).1 ∧
      (enable_server env st name (some ctx)).2.1 = (enable_server env st name (some ctx')).2.1) ∧
    ((disable_server env st name (some ctx)).1 = (disable_server env st name (some ctx')).1 ∧
      (disable_server env st name (some ctx)).2.1 = (disable_server env st name (some ctx')).2.1) ∧
    ((load_kit env st kname (some ctx)).1 = (load_kit env st kname (some ctx')).1 ∧
      (load_kit env st kname (some ctx)).2.1 = (load_kit env st kname (some ctx')).2.1) ∧
    ((unload_kit env st kname (some ctx)).1 = (unload_kit env st kname (some ctx')).1 ∧
      (unload_kit env st kname (some ctx)).2.1 = (unload_kit env st kname (some ctx')).2.1) :=
  ⟨rfl, ⟨rfl, rfl⟩, ⟨rfl, rfl⟩, ⟨rfl, rfl⟩, ⟨rfl, rfl⟩, ⟨rfl, rfl⟩, ⟨rfl, rfl⟩⟩

/-- Claim C6: removing a name with no configured server entry returns a failed
`OperationResult` of kind `NotFound`, leaves the state (in particular the
server set) unchanged, and still triggers exactly one round of notifications
when a client context is supplied. -/
theorem remove_nonexistent_notfound (env : Env) (st : State) (name : String)
    (ctx : ClientContext) (h : st.findServer name = none) :
    (remove_server env st name (some ctx)).2.1.is_success = false ∧
    (remove_server env st name (some ctx)).2.1.errKind = some ErrKind.NotFound ∧
    (remove_server env st name (some ctx)).1 = st ∧
    (remove_server env st name (some ctx)).2.2 = NotifyLog.oneEach := by
  unfold remove_server withNotify removeCore
  rw [h]
  exact ⟨rfl, rfl, rfl, rfl⟩

/-- Witness for C6: removing the absent name `zzz` from the concrete state
`stW` fails with `NotFound`, changes nothing, and notifies once. -/
theorem remove_nonexistent_notfound_witness :
    (remove_server envW stW "zzz" (some ctxW)).2.1.is_success = false ∧
    (remove_server envW stW "zzz" (some ctxW)).2.1.errKind = some ErrKind.NotFound ∧
    (remove_server envW stW "zzz" (some ctxW)).1 = stW ∧
    (remove_server envW stW "zzz" (some ctxW)).2.2 = NotifyLog.oneEach :=
  remove_nonexistent_notfound envW stW "zzz" ctxW (by decide)

/-- Claim C9: `mount` and `unmount` are idempotent — mounting an already-mounted
server, or unmounting an already-unmounted one, returns a no-op success and
leaves the whole state (entry and Capability Registry included, so no
duplicated registry entries) unchanged. -/
theorem mount_unmount_idempotent (env : Env) (st : State) (name : String)
    (e : ServerEntry) (hfind : st.findServer name = some e) :
    (e.mounted = true → mountCore env st name = (st, MaggResponse.ok)) ∧
    (e.mounted = false → unmountCore env st name = (st, MaggResponse.ok)) := by
  constructor
  · intro hm
    unfold mountCore
    rw [hfind]
    simp [hm]
  · intro hm
    unfold unmountCore
    rw [hfind]
    simp [hm]

/-- Witness for C9: in `stW`, re-mounting the mounted server `a` and
re-unmounting the never-mounted server `b` are both no-op successes. -/
theorem mount_unmount_idempotent_witness :
    mountCore envW stW "a" = (stW, MaggResponse.ok) ∧
    unmountCore envW stW "b" = (stW, MaggResponse.ok) :=
  ⟨(mount_unmount_idempotent envW stW "a" entryMountedW (by decide)).1 rfl,
   (mount_unmount_idempotent envW stW "b" entryConfiguredW (by decide)).2 rfl⟩

/-- Claim C3: for `check` with action `disable` or `unmount` and a client context
supplied, the notification dispatch fires exactly once if and only if
`actions_taken` is non-empty at the end of the check — and `env` (hence runs
in which the check itself reports failure after having taken actions) is
universally quantified. -/
theorem check_notifies_iff_actions_taken (env : Env) (st : State)
    (action : CheckAction) (ctx : ClientContext)
    (h : action = CheckAction.disable ∨ action = CheckAction.unmount) :
    (check env st action (some ctx)).2.2 =
      (if (check env st action (some ctx)).2.1.actions_taken.isEmpty
       then NotifyLog.zero else NotifyLog.oneEach) ∧
    ((check env st action (some ctx)).2.2 = NotifyLog.oneEach ↔
      (check env st action (some ctx)).2.1.actions_taken ≠ []) := by
  have heq : (check env st action (some ctx)).2.2 =
      (if (check env st action (some ctx)).2.1.actions_taken.isEmpty
       then NotifyLog.zero else NotifyLog.oneEach) := rfl
  refine ⟨heq, ?_⟩
  rw [heq]
  by_cases hE : (check env st action (some ctx)).2.1.actions_taken = []
  · simp [hE, NotifyLog.zero, NotifyLog.oneEach]
  · simp [List.isEmpty_iff, hE]

/-- Witness for C3: in `envFailW` every probe times out and the check then
fails internally, so `check` on `stW` with action `disable` both takes
actions and reports failure — and the dispatch fired once accordingly. -/
theorem check_notifies_iff_actions_taken_witness :
    (check envFailW stW CheckAction.disable (some ctxW)).2.2 =
      (if (check envFailW stW CheckAction.disable (some ctxW)).2.1.actions_taken.isEmpty
       then NotifyLog.zero else NotifyLog.oneEach) ∧
    ((check envFailW stW CheckAction.disable (some ctxW)).2.2 = NotifyLog.oneEach ↔
      (check envFailW stW CheckAction.disable (some ctxW)).2.1.actions_taken ≠ []) :=
  check_notifies_iff_actions_taken envFailW stW CheckAction.disable ctxW (Or.inl rfl)

/-- Claim C2: in Kit-changes-only mode the client-visible capability set is exactly
{kit load, kit unload, list kits, kit info, list servers, status, proxy},
and in Full mode it is a strict superset that additionally contains
add/remove/enable/disable/search/configure/analyze/check/reload. -/
theorem kit_changes_only_capability_set :
    (∀ s : String, s ∈ visibleTools OperatingMode.kitChangesOnly ↔
      s ∈ ["magg_load_kit", "magg_unload_kit", "magg_list_kits", "magg_kit_info",
           "magg_list_servers", "magg_status", "proxy"]) ∧
    (∀ s : String, s ∈ visibleTools OperatingMode.kitChangesOnly →
      s ∈ visibleTools OperatingMode.full) ∧
    ("magg_add_server" ∈ visibleTools OperatingMode.full ∧
      "magg_add_server" ∉ visibleTools OperatingMode.kitChangesOnly) ∧
    (∀ s : String, s ∈ ["magg_add_server", "magg_remove_server",
        "magg_enable_server", "magg_disable_server", "magg_search_servers",
        "magg_smart_configure", "magg_analyze_servers", "magg_check",
        "magg_reload_config"] → s ∈ visibleTools OperatingMode.full) := by
  have hkit : visibleTools OperatingMode.kitChangesOnly =
      ["magg_load_kit", "magg_unload_kit", "magg_list_kits", "magg_kit_info",
       "magg_list_servers", "magg_status", "proxy"] := rfl
  have hfull : visibleTools OperatingMode.full =
      ["magg_add_server", "magg_remove_server", "magg_enable_server",
       "magg_disable_server", "magg_search_servers", "magg_smart_configure",
       "magg_analyze_servers", "magg_check", "magg_reload_config",
       "magg_load_kit", "magg_unload_kit", "magg_list_kits", "magg_kit_info",
       "magg_list_servers", "magg_status", "proxy"] := rfl
  refine ⟨fun s => Iff.rfl, ?_, ⟨by decide, by decide⟩, ?_⟩
  · intro s hs
    rw [hkit] at hs
    rw [hfull]
    simp only [List.mem_cons, List.not_mem_nil, or_false] at hs ⊢
    tauto
  · intro s hs
    rw [hfull]
    simp only [List.mem_cons, List.not_mem_nil, or_false] at hs ⊢
    tauto

/-- Witness for C2: the kit-load capability, visible in Kit-changes-only mode,
is also visible in Full mode. -/
theorem kit_changes_only_capability_set_witness :
    "magg_load_kit" ∈ visibleTools OperatingMode.full :=
  kit_changes_only_capability_set.2.1 "magg_load_kit" (by decide)

/-! ### Preservation of the lifecycle invariant (towards C8) -/

/-- Membership in an updated server list: an element is either the image of a
matching entry, or an untouched entry whose name differs. -/
theorem mem_updateServer {st : State} {name : String}
    {f : ServerEntry → ServerEntry} {e' : ServerEntry}
    (he' : e' ∈ (updateServer st name f).servers) :
    (∃ x ∈ st.servers, x.name = name ∧ e' = f x) ∨
      (e' ∈ st.servers ∧ e'.name ≠ name) := by
  simp only [updateServer, List.mem_map] at he'
  obtain ⟨x, hx, hxe⟩ := he'
  by_cases hb : x.name = name
  · exact Or.inl ⟨x, hx, hb, by rw [← hxe, if_pos (by simp [hb])]⟩
  · have hex : e' = x := by rw [← hxe, if_neg (by simp [hb])]
    exact Or.inr ⟨hex ▸ hx, hex ▸ hb⟩

theorem inv_mountCore (env : Env) (name : String) {st : State} (h : Inv st) :
    Inv (mountCore env st name).1 := by
  unfold mountCore
  rcases hfind : st.findServer name with _ | e
  · exact h
  · by_cases hm : e.mounted = true
    · simpa [hm] using h
    · by_cases hmo : env.mountOk name = true
      · simp only [hm, hmo, if_true, if_false]
        intro e' he' hmount
        rcases mem_updateServer he' with ⟨x, _, hxname, hex⟩ | ⟨hmem, _⟩
        · subst hex
          exact ⟨rfl, by simp [updateServer, hxname]⟩
        · have := h e' hmem hmount
          exact ⟨this.1, by simp [updateServer, this.2]⟩
      · simpa [hm, hmo] using h

theorem inv_unmountCore (env : Env) (name : String) {st : State} (h : Inv st) :
    Inv (unmountCore env st name).1 := by
  unfold unmountCore
  rcases hfind : st.findServer name with _ | e
  · exact h
  · by_cases hm : e.mounted = true
    · simp only [hm, if_true]
      intro e' he' hmount
      rcases mem_updateServer he' with ⟨x, _, _, hex⟩ | ⟨hmem, hne⟩
      · subst hex
        simp at hmount
      · have := h e' hmem hmount
        exact ⟨this.1, by
          simp only [updateServer]
          exact (List.mem_erase_of_ne hne).mpr this.2⟩
    · simpa [hm] using h

theorem inv_addCore (env : Env) (name source command : String) (enable : Bool)
    (owner : Option String) {st : State} (h : Inv st) :
    Inv (addCore env st name source command enable owner).1 := by
  unfold addCore
  rcases hfind : st.findServer name with _ | e
  · have hbase : Inv { st with
        servers := st.servers ++
          [{ name := name, source := source, command := command,
             enabled := enable, mounted := false, kitOwner := owner }] } := by
      intro e' he' hmount
      rcases List.mem_append.mp he' with hold | hnew
      · exact h e' hold hmount
      · rw [List.mem_singleton.mp hnew] at hmount
        simp at hmount
    by_cases hen : enable = true
    · subst hen
      simpa using inv_mountCore env name hbase
    · simpa [hen] using hbase
  · exact h

theorem inv_enableCore (env : Env) (name : String) {st : State} (h : Inv st) :
    Inv (enableCore env st name).1 := by
  unfold enableCore
  rcases hfind : st.findServer name with _ | e
  · exact h
  · refine inv_mountCore env name ?_
    intro e' he' hmount
    rcases mem_updateServer he' with ⟨x, hx, _, hex⟩ | ⟨hmem, _⟩
    · subst hex
      have := h x hx (by simpa using hmount)
      exact ⟨rfl, by simpa [updateServer] using this.2⟩
    · have := h e' hmem hmount
      exact ⟨this.1, by simpa [updateServer] using this.2⟩

theorem inv_disableCore (env : Env) (name : String) {st : State} (h : Inv st) :
    Inv (disableCore env st name).1 := by
  unfold disableCore
  rcases hfind : st.findServer name with _ | e
  · exact h
  · have h1 := inv_unmountCore env name h
    intro e' he' hmount
    rcases mem_updateServer he' with ⟨x, _, _, hex⟩ | ⟨hmem, _⟩
    · subst hex
      simp at hmount
    · have := h1 e' hmem hmount
      exact ⟨this.1, by simpa [updateServer] using this.2⟩

theorem inv_removeCore (env : Env) (name : String) {st : State} (h : Inv st) :
    Inv (removeCore env st name).1 := by
  unfold removeCore
  rcases hfind : st.findServer name with _ | e
  · exact h
  · have h1 := inv_unmountCore env name h
    intro e' he' hmount
    exact h1 e' (List.mem_of_mem_filter he') hmount

theorem inv_foldl {α : Type} (f : State → α → State)
    (hf : ∀ st a, Inv st → Inv (f st a)) :
    ∀ (l : List α) (st : State), Inv st → Inv (l.foldl f st) := by
  intro l
  induction l with
  | nil => intro st h; exact h
  | cons a l ih => intro st h; exact ih _ (hf st a h)

theorem inv_foldl_fst {α β : Type} (f : State × β → α → State × β)
    (hf : ∀ p a, Inv p.1 → Inv (f p a).1) :
    ∀ (l : List α) (p : State × β), Inv p.1 → Inv (l.foldl f p).1 := by
  intro l
  induction l with
  | nil => intro p h; exact h
  | cons a l ih => intro p h; exact ih _ (hf p a h)

theorem inv_loadedKits {st : State} (l : List String) (h : Inv st) :
    Inv { st with loadedKits := l } := by
  intro e' he' hmount
  exact h e' he' hmount

theorem inv_loadKitCore (env : Env) (name : String) {st : State} (h : Inv st) :
    Inv (loadKitCore env st name).1 := by
  unfold loadKitCore
  split
  · exact h
  · split
    · exact h
    · refine inv_loadedKits _ ?_
      exact inv_foldl_fst (loadKitStep env name)
        (fun p d hp => inv_addCore env d.name d.source d.command d.enabled
          (some name) hp) _ (st, []) h

theorem inv_unloadKitCore (env : Env) (name : String) {st : State} (h : Inv st) :
    Inv (unloadKitCore env st name).1 := by
  unfold unloadKitCore
  split
  · exact h
  · split
    · refine inv_loadedKits _ ?_
      exact inv_foldl (fun s n => (removeCore env s n).1)
        (fun s n hs => inv_removeCore env n hs) _ st h
    · exact h

theorem inv_checkCore (env : Env) (action : CheckAction) {st : State}
    (h : Inv st) : Inv (checkCore env st action).1 := by
  unfold checkCore
  cases action with
  | report => exact h
  | disable => exact inv_foldl _ (fun s n hs => inv_disableCore env n hs) _ st h
  | unmount => exact inv_foldl _ (fun s n hs => inv_unmountCore env n hs) _ st h

theorem inv_applyOp (env : Env) (op : Op) {st : State} (h : Inv st) :
    Inv (applyOp env st op) := by
  cases op with
  | add name source command enable => exact inv_addCore env name source command enable none h
  | remove name => exact inv_removeCore env name h
  | enable name => exact inv_enableCore env name h
  | disable name => exact inv_disableCore env name h
  | mount name => exact inv_mountCore env name h
  | unmount name => exact inv_unmountCore env name h
  | loadKit name => exact inv_loadKitCore env name h
  | unloadKit name => exact inv_unloadKitCore env name h
  | check action => exact inv_checkCore env action h

/-- Claim C8: in every state reachable from the initial state by any sequence of
add/remove/enable/disable/mount/unmount/loadKit/unloadKit/check operations,
every mounted `ServerEntry` is enabled, and no entry is mounted while absent
from the Capability Registry. -/
theorem lifecycle_invariant_reachable (env : Env) (ops : List Op) :
    ∀ e ∈ (runOps env ops).servers, e.mounted = true →
      e.enabled = true ∧ e.name ∈ (runOps env ops).registry := by
  have hinit : Inv State.init := by
    intro e he _
    simp [State.init] at he
  exact inv_foldl (applyOp env) (fun st op hst => inv_applyOp env op hst)
    ops State.init hinit

/-- Witness for C8: after the one-operation history `opsW` (add server `a`
with immediate successful mount), the mounted entry `a` is enabled and its
contribution is registered. -/
theorem lifecycle_invariant_reachable_witness :
    entryMountedW.enabled = true ∧ entryMountedW.name ∈ (runOps envW opsW).registry :=
  lifecycle_invariant_reachable envW opsW entryMountedW (by decide) (by decide)

/-! ### Environment-variable expansion (towards C10) -/

/-- A character other than `$` cannot start a match: it is copied and the
scan continues. -/
theorem expandAux_cons_of_ne (env : String → Option String) {c : Char}
    (hc : c ≠ '$') (l : List Char) :
    expandAux env (c :: l) = c :: expandAux env l := by
  cases l with
  | nil => rw [expandAux.eq_2, expandAux.eq_1]
  | cons c2 t => rw [expandAux.eq_3, if_neg (fun hcon => hc hcon.1)]

/-- Scanning `V ++ '}' :: t` for the first closing brace, where `V` has none,
finds it right after `V`. -/
theorem findCloseBrace_append {V : List Char} (hV : '}' ∉ V) (t : List Char) :
    findCloseBrace (V ++ '}' :: t) = some V.length := by
  induction V with
  | nil => simp [findCloseBrace]
  | cons c V ih =>
    have hc : c ≠ '}' := fun hcon => hV (hcon ▸ List.mem_cons_self c V)
    have hV' : '}' ∉ V := fun hm => hV (List.mem_cons_of_mem c hm)
    simp [findCloseBrace, hc, ih hV']

/-- A leading match: the scan replaces the brace group via `replace_braced`
and resumes after the closing brace. -/
theorem expandAux_match (env : String → Option String) {V : List Char}
    (hne : V ≠ []) (hV : '}' ∉ V) (post : List Char) :
    expandAux env ('$' :: '{' :: (V ++ '}' :: post)) =
      replace_braced env V ++ expandAux env post := by
  conv_lhs => unfold expandAux
  rw [if_pos ⟨rfl, rfl⟩, findCloseBrace_append hV]
  simp only [List.take_left, List.drop_append 1, List.isEmpty_iff, hne, if_neg]
  rfl

/-- Text without `$` passes through the scan unchanged, whatever follows. -/
theorem expandAux_append_of_not_mem (env : String → Option String)
    {l : List Char} (hl : '$' ∉ l) (t : List Char) :
    expandAux env (l ++ t) = l ++ expandAux env t := by
  induction l with
  | nil => rfl
  | cons c l ih =>
    have hc : c ≠ '$' := fun hcon => hl (hcon ▸ List.mem_cons_self c l)
    have hl' : '$' ∉ l := fun hm => hl (List.mem_cons_of_mem c hm)
    rw [List.cons_append, expandAux_cons_of_ne env hc, ih hl']
    rfl

/-- A string without `$` is returned unchanged. -/
theorem expandAux_id_of_not_mem (env : String → Option String)
    {l : List Char} (hl : '$' ∉ l) : expandAux env l = l := by
  have h := expandAux_append_of_not_mem env hl []
  simpa [expandAux] using h

/-- Splitting `V ++ ':' :: '-' :: d` at the first `:-`, where `V` contains
none, yields `(V, d)`. -/
theorem splitColonDash_append {V : List Char} (hV : splitColonDash V = none)
    (d : List Char) : splitColonDash (V ++ ':' :: '-' :: d) = some (V, d) := by
  induction V with
  | nil => simp [splitColonDash.eq_3]
  | cons c V ih =>
    cases V with
    | nil => simp [splitColonDash.eq_3]
    | cons c2 V' =>
      rw [splitColonDash.eq_3] at hV
      have hcond : ¬(c = ':' ∧ c2 = '-') := by
        intro hcon
        rw [if_pos hcon] at hV
        exact Option.noConfusion hV
      rw [if_neg hcond] at hV
      have hnone : splitColonDash (c2 :: V') = none := Option.map_eq_none'.mp hV
      have harr : (c :: c2 :: V') ++ ':' :: '-' :: d =
          c :: c2 :: (V' ++ ':' :: '-' :: d) := rfl
      rw [harr, splitColonDash.eq_3, if_neg hcond,
          show c2 :: (V' ++ ':' :: '-' :: d) = (c2 :: V') ++ ':' :: '-' :: d from rfl,
          ih hnone]
      rfl

/-- Claim C10: `expand_env_vars` replaces each occurrence of a braced
variable reference with a `:-` default by the environment value of the
variable when set and by the literal default text when unset, replaces each
plain braced reference by the environment value when set and leaves it
textually unchanged (braces included) when unset, leaves text without `$`
unchanged, and returns any non-string input unchanged. Occurrences are
characterised compositionally: an arbitrary dollar-free prefix, the
occurrence, and an arbitrary continuation processed recursively. -/
theorem expand_env_vars_spec (env : String → Option String) :
    (∀ l : List Char, '$' ∉ l → expandAux env l = l) ∧
    (∀ (pre V post : List Char) (val : String), '$' ∉ pre → V ≠ [] → '}' ∉ V →
      splitColonDash V = none → env (String.mk V) = some val →
      expandAux env (pre ++ '$' :: '{' :: (V ++ '}' :: post)) =
        pre ++ val.data ++ expandAux env post) ∧
    (∀ (pre V post : List Char), '$' ∉ pre → V ≠ [] → '}' ∉ V →
      splitColonDash V = none → env (String.mk V) = none →
      expandAux env (pre ++ '$' :: '{' :: (V ++ '}' :: post)) =
        pre ++ '$' :: '{' :: (V ++ ['}']) ++ expandAux env post) ∧
    (∀ (pre V d post : List Char) (val : String), '$' ∉ pre → '}' ∉ V → '}' ∉ d →
      splitColonDash V = none → pyStrip V = V → env (String.mk V) = some val →
      expandAux env (pre ++ '$' :: '{' :: ((V ++ ':' :: '-' :: d) ++ '}' :: post)) =
        pre ++ val.data ++ expandAux env post) ∧
    (∀ (pre V d post : List Char), '$' ∉ pre → '}' ∉ V → '}' ∉ d →
      splitColonDash V = none → pyStrip V = V → env (String.mk V) = none →
      expandAux env (pre ++ '$' :: '{' :: ((V ++ ':' :: '-' :: d) ++ '}' :: post)) =
        pre ++ d ++ expandAux env post) ∧
    (∀ o : Nat, expand_env_vars env (PyVal.nonStr o) = PyVal.nonStr o) ∧
    (∀ s : String, expand_env_vars env (PyVal.str s) =
      PyVal.str (String.mk (expandAux env s.data))) := by
  refine ⟨fun l hl => expandAux_id_of_not_mem env hl, ?_, ?_, ?_, ?_,
    fun o => rfl, fun s => rfl⟩
  · intro pre V post val hpre hne hV hsplit henv
    have hr : replace_braced env V = val.data := by
      simp [replace_braced, hsplit, henv]
    rw [expandAux_append_of_not_mem env hpre, expandAux_match env hne hV, hr,
      List.append_assoc]
  · intro pre V post hpre hne hV hsplit henv
    have hr : replace_braced env V = '$' :: '{' :: (V ++ ['}']) := by
      simp [replace_braced, hsplit, henv]
    rw [expandAux_append_of_not_mem env hpre, expandAux_match env hne hV, hr,
      List.append_assoc]
  · intro pre V d post val hpre hV hd hsplit hstrip henv
    have hne : V ++ ':' :: '-' :: d ≠ [] := by simp
    have hVd : '}' ∉ V ++ ':' :: '-' :: d := by
      intro hm
      rcases List.mem_append.mp hm with hm | hm
      · exact hV hm
      · simp only [List.mem_cons] at hm
        rcases hm with hm | hm | hm
        · exact absurd hm (by decide)
        · exact absurd hm (by decide)
        · exact hd hm
    have hr : replace_braced env (V ++ ':' :: '-' :: d) = val.data := by
      simp [replace_braced, splitColonDash_append hsplit, hstrip, henv]
    rw [expandAux_append_of_not_mem env hpre, expandAux_match env hne hVd, hr,
      List.append_assoc]
  · intro pre V d post hpre hV hd hsplit hstrip henv
    have hne : V ++ ':' :: '-' :: d ≠ [] := by simp
    have hVd : '}' ∉ V ++ ':' :: '-' :: d := by
      intro hm
      rcases List.mem_append.mp hm with hm | hm
      · exact hV hm
      · simp only [List.mem_cons] at hm
        rcases hm with hm | hm | hm
        · exact absurd hm (by decide)
        · exact absurd hm (by decide)
        · exact hd hm
    have hr : replace_braced env (V ++ ':' :: '-' :: d) = d := by
      simp [replace_braced, splitColonDash_append hsplit, hstrip, henv]
    rw [expandAux_append_of_not_mem env hpre, expandAux_match env hne hVd, hr,
      List.append_assoc]

/-- Witness for C10: expanding the docstring example `Bearer ` followed by a
braced `API_KEY` reference under the concrete environment `envLookupW`
yields `Bearer ` followed by `secret123`. -/
theorem expand_env_vars_spec_witness :
    expandAux envLookupW ("Bearer ".data ++ '$' :: '{' :: ("API_KEY".data ++ '}' :: [])) =
      "Bearer ".data ++ "secret123".data ++ expandAux envLookupW [] :=
  (expand_env_vars_spec envLookupW).2.1 "Bearer ".data "API_KEY".data [] "secret123"
    (by decide) (by decide) (by decide) (by decide) (by decide)

end Magg
